import Mathlib

/-!
Verification of the kaggle leaderboard fetcher (`src/kaggle_service.py`).

Shallow embedding notes:
* A pandas `DataFrame` holding a leaderboard is modelled as a `List Row`:
  the list order is the `DataFrame` row order, and the positional index of a
  row in the list models the default `RangeIndex` label of that row (every
  leaderboard frame in the source is built fresh by `pd.DataFrame(data)` or
  `pd.read_csv`, so labels coincide with positions).
* Numeric scores and weights are `float` in the source; they are modelled
  over an arbitrary `LinearOrderedCommRing` (the repository instantiates it
  with real numbers; concrete evaluations below use `Int`).  The scoring
  function itself (`calculate_position_points`, line 114) is transcendental
  and is modelled separately over `ℝ`.
* I/O (`kaggle` API calls, `pd.read_csv`) is modelled by an explicit
  environment value describing what the external world returns; an
  exception raised by an external call is an error constructor of that
  environment.  Observers (`LeaderboardObserver.update`) are modelled by
  whether their `update` call raises, which is the only aspect of a
  listener the service code can observe.
* `pandas.groupby(..., as_index=False)[...].sum()` sorts the group keys
  ascending (its `sort=True` default); the key order is modelled with a
  computable lexicographic order on the code points of the team name.
  `sort_values(..., ascending=False)` is modelled with `insertionSort`;
  the claims proved below depend only on the result being descending in
  the summed points and on the sorted input being order-invariant, both of
  which hold for the pandas sort as well.
-/

/-- Lexicographic comparison of code-point lists, used to model the
ascending group-key order produced by `pandas.groupby`. -/
def charListLe : List Char → List Char → Bool
  | [], _ => true
  | _ :: _, [] => false
  | a :: as, b :: bs =>
    if a.toNat < b.toNat then true
    else if b.toNat < a.toNat then false
    else charListLe as bs

/-- Lexicographic comparison of strings by code points. -/
def strLe (a b : String) : Bool := charListLe a.data b.data

/-- The group-key ordering relation on team names. -/
def nameLe (a b : String) : Prop := strLe a b = true

instance : DecidableRel nameLe := fun a b => inferInstanceAs (Decidable (strLe a b = true))

theorem charListLe_total (as bs : List Char) : charListLe as bs = true ∨ charListLe bs as = true := by
  induction as generalizing bs with
  | nil => left; rfl
  | cons a as ih =>
    cases bs with
    | nil => right; rfl
    | cons b bs =>
      rcases Nat.lt_trichotomy a.toNat b.toNat with h | h | h
      · left; simp [charListLe, h]
      · rcases ih bs with h2 | h2
        · left; simp [charListLe, h.le.not_lt, h.ge.not_lt, h2]
        · right; simp [charListLe, h.le.not_lt, h.ge.not_lt, h2]
      · right; simp [charListLe, h]

theorem char_eq_of_toNat_eq {a b : Char} (h : a.toNat = b.toNat) : a = b := by
  unfold Char.toNat at h
  exact Char.eq_of_val_eq (UInt32.toNat.inj h)

theorem charListLe_trans {as bs cs : List Char} (h1 : charListLe as bs = true)
    (h2 : charListLe bs cs = true) : charListLe as cs = true := by
  induction as generalizing bs cs with
  | nil => rfl
  | cons a as ih =>
    cases bs with
    | nil => simp [charListLe] at h1
    | cons b bs =>
      cases cs with
      | nil => simp [charListLe] at h2
      | cons c cs =>
        simp only [charListLe] at h1 h2 ⊢
        rcases Nat.lt_trichotomy a.toNat b.toNat with hab | hab | hab
        · rcases Nat.lt_trichotomy b.toNat c.toNat with hbc | hbc | hbc
          · rw [if_pos (by omega)]
          · rw [if_pos (by omega)]
          · rw [if_neg (by omega), if_pos (by omega)] at h2
            simp at h2
        · rcases Nat.lt_trichotomy b.toNat c.toNat with hbc | hbc | hbc
          · rw [if_pos (by omega)]
          · rw [if_neg (by omega), if_neg (by omega)]
            rw [if_neg (by omega), if_neg (by omega)] at h1
            rw [if_neg (by omega), if_neg (by omega)] at h2
            exact ih h1 h2
          · rw [if_neg (by omega), if_pos (by omega)] at h2
            simp at h2
        · rw [if_neg (by omega), if_pos (by omega)] at h1
          simp at h1

theorem charListLe_antisymm {as bs : List Char} (h1 : charListLe as bs = true)
    (h2 : charListLe bs as = true) : as = bs := by
  induction as generalizing bs with
  | nil =>
    cases bs with
    | nil => rfl
    | cons b bs => simp [charListLe] at h2
  | cons a as ih =>
    cases bs with
    | nil => simp [charListLe] at h1
    | cons b bs =>
      rcases Nat.lt_trichotomy a.toNat b.toNat with hab | hab | hab
      · simp only [charListLe] at h2
        rw [if_neg (by omega), if_pos (by omega)] at h2
        simp at h2
      · simp only [charListLe] at h1 h2
        rw [if_neg (by omega), if_neg (by omega)] at h1
        rw [if_neg (by omega), if_neg (by omega)] at h2
        exact (char_eq_of_toNat_eq hab) ▸ congrArg (List.cons a) (ih h1 h2)
      · simp only [charListLe] at h1
        rw [if_neg (by omega), if_pos (by omega)] at h1
        simp at h1

instance : IsTotal String nameLe := ⟨fun a b => charListLe_total a.data b.data⟩

instance : IsTrans String nameLe := ⟨fun _ _ _ h1 h2 => charListLe_trans h1 h2⟩

instance : IsAntisymm String nameLe :=
  ⟨fun a b h1 h2 => by
    cases a; cases b
    exact congrArg String.mk (charListLe_antisymm h1 h2)⟩

variable {α : Type} [LinearOrderedCommRing α]

/-- One leaderboard row (`teamId`, `teamName`, `score` columns of the
fetched frame; `submissionDate` is never read by the service and is
omitted).  The score type is generic, see the header. -/
structure Row (α : Type) where
  teamId : Int
  teamName : String
  score : α
deriving DecidableEq

/-- One change record appended by `KaggleService._detect_changes`
(lines 185 and 197): either a `new_entry` or a `position_change` dict. -/
inductive Change (α : Type) where
  | new_entry (teamId : Int) (teamName : String) (newPosition : Nat) (newScore : α)
  | position_change (teamId : Int) (teamName : String) (oldPosition newPosition : Nat)
      (oldScore newScore : α)
deriving DecidableEq

/-- The `teamId` field of a change record. -/
def changeTeamId : Change α → Int
  | Change.new_entry tid _ _ _ => tid
  | Change.position_change tid _ _ _ _ _ => tid

/-- The `new_position` field of a change record. -/
def changeNewPos : Change α → Nat
  | Change.new_entry _ _ np _ => np
  | Change.position_change _ _ _ np _ _ => np

/-- Model of `old_df[old_df[teamId-column] == team_id]` followed by
`.index[0]` and `.iloc[0]` (lines 182, 195, 203): the first row of `old`
whose `teamId` equals `tid`, together with its positional index.  The
accumulator `i` is the index of the head of the remaining list. -/
def findTeamAux : Nat → List (Row α) → Int → Option (Nat × Row α)
  | _, [], _ => none
  | i, r :: rest, tid =>
    if r.teamId = tid then some (i, r) else findTeamAux (i + 1) rest tid

/-- First match of a team id in the old snapshot, with its index. -/
def findTeam (old : List (Row α)) (tid : Int) : Option (Nat × Row α) :=
  findTeamAux 0 old tid

/-- The loop body of `_detect_changes` (lines 180-205) for one row of the
new frame at positional index `index`: `none` when the row contributes no
change record. -/
def detectStep (old : List (Row α)) (index : Nat) (row : Row α) : Option (Change α) :=
  match findTeam old row.teamId with
  | none => some (Change.new_entry row.teamId row.teamName index row.score)
  | some (oldPos, oldRow) =>
    if oldPos ≠ index ∨ oldRow.score ≠ row.score then
      some (Change.position_change row.teamId row.teamName oldPos index oldRow.score row.score)
    else none

/-- The `for index, row in new_df.iterrows()` loop of `_detect_changes`,
accumulating change records in iteration order; `i` is the positional
index of the head of the remaining rows. -/
def detectAux (old : List (Row α)) : Nat → List (Row α) → List (Change α)
  | _, [] => []
  | i, row :: rest =>
    match detectStep old i row with
    | some c => c :: detectAux old (i + 1) rest
    | none => detectAux old (i + 1) rest

/-- `KaggleService._detect_changes` (lines 176-207). -/
def detect_changes (old new : List (Row α)) : List (Change α) :=
  detectAux old 0 new

/-- What reading `{competition_name}.csv` produces, after the service has
synthesized a `teamId` column when missing (line 125, via `hash`) and
overwritten the `score` column positionally (line 126): either the
processed rows, or an exception from `pd.read_csv` or the processing. -/
inductive CsvResult (α : Type) where
  | ok (rows : List (Row α))
  | err
deriving DecidableEq

/-- What `self.api.competition_view_leaderboard` produces, after shape
extraction (lines 135-140) and processing into rows with synthesized
`teamId` and positional `score` columns (lines 146-151): the processed
rows, an empty submissions list (line 142), or a raised exception. -/
inductive ApiResult (α : Type) where
  | ok (rows : List (Row α))
  | noData
  | err
deriving DecidableEq

/-- The external world as observed by one `fetch_leaderboard_data` call. -/
structure FetchEnv (α : Type) where
  csv : CsvResult α
  api : ApiResult α
deriving DecidableEq

/-- The outcome of one `fetch_leaderboard_data` call:
`cache` is `self._cached_leaderboards` afterwards, `changes` mirrors the
local `changes` variable (line 153: `None` unless change detection ran),
`invoked` lists the indices of observers whose `update` was called,
`ret` is the returned frame, and `errorLogged` records whether an
`except` handler (or the no-data warning) logged and forced an empty
return. -/
structure FetchResult (α : Type) where
  cache : List (String × List (Row α))
  changes : Option (List (Change α))
  invoked : List Nat
  ret : List (Row α)
  errorLogged : Bool
deriving DecidableEq

/-- `self.csv_challenges` (line 87). -/
def csv_challenges : List String :=
  ["csv-challenge-1", "csv-challenge-2", "csv-challenge-3", "csv-challenge-4", "csv-challenge-5"]

/-- Dictionary read `self._cached_leaderboards[name]` (`None` when the key
is absent, modelling the `in` test of line 154). -/
def lookupCache {α : Type} : List (String × List (Row α)) → String → Option (List (Row α))
  | [], _ => none
  | (k, v) :: rest, n => if k = n then some v else lookupCache rest n

/-- Dictionary write `self._cached_leaderboards[name] = df` (lines 159,
163): replace the binding when present, append it otherwise. -/
def insertCache {α : Type} : List (String × List (Row α)) → String → List (Row α) →
    List (String × List (Row α))
  | [], n, v => [(n, v)]
  | (k, w) :: rest, n, v =>
    if k = n then (n, v) :: rest else (k, w) :: insertCache rest n v

/-- The `for observer in self._observers` loop of `notify_observers`
(lines 218-221).  Each observer is represented by whether its `update`
raises.  Returns the indices of the observers that were called (offset by
the accumulator `i`) and whether an exception escaped the loop: the body
has no handler, so the first raising observer ends the loop. -/
def notifyAux : Nat → List Bool → List Nat × Bool
  | _, [] => ([], false)
  | i, raises :: rest =>
    if raises then ([i], true)
    else
      let r := notifyAux (i + 1) rest
      (i :: r.1, r.2)

/-- `KaggleService.notify_observers` (lines 218-221), observers in
subscription order. -/
def notify_observers (observers : List Bool) : List Nat × Bool :=
  notifyAux 0 observers

/-- `KaggleService.fetch_leaderboard_data` (lines 118-174) for one call on
competition `name`, given the cache, the subscribed observers and the
external environment.  The body from line 132 onwards runs inside
`try ... except` handlers that log and return an empty frame, so an
exception raised by a notified observer is caught there — after the cache
assignment of line 159/163 has already happened. -/
def fetch_leaderboard_data {α : Type} [LinearOrderedCommRing α] [DecidableEq α]
    (cache : List (String × List (Row α))) (observers : List Bool) (name : String)
    (env : FetchEnv α) : FetchResult α :=
  if name ∈ csv_challenges then
    match env.csv with
    | CsvResult.ok rows => ⟨cache, none, [], rows, false⟩
    | CsvResult.err => ⟨cache, none, [], [], true⟩
  else
    match env.api with
    | ApiResult.err => ⟨cache, none, [], [], true⟩
    | ApiResult.noData => ⟨cache, none, [], [], true⟩
    | ApiResult.ok df =>
      match lookupCache cache name with
      | some old_df =>
        let changes := detect_changes old_df df
        if changes = [] then ⟨cache, some changes, [], df, false⟩
        else
          let cache2 := insertCache cache name df
          let note := notify_observers observers
          ⟨cache2, some changes, note.1, if note.2 then [] else df, note.2⟩
      | none =>
        let cache2 := insertCache cache name df
        let note := notify_observers observers
        ⟨cache2, none, note.1, if note.2 then [] else df, note.2⟩

/-- The monitoring-related state of `KaggleService`:
`competitions` is `self._competitions` (the weights dict, modelled as the
insertion-ordered key/value list), `monitoring` is `self._monitoring`, and
`monitorThreads` counts the monitor loops launched by
`threading.Thread(...).start()` (line 96). -/
structure MonitorState (α : Type) where
  competitions : List (String × α)
  monitoring : Bool
  monitorThreads : Nat
deriving DecidableEq

/-- `KaggleService.start_monitoring` (lines 89-96): the weights dict is
assigned unconditionally (line 91) before the `self._monitoring` guard. -/
def start_monitoring {α : Type} (s : MonitorState α) (competitions : List (String × α)) :
    MonitorState α :=
  let s2 : MonitorState α := { s with competitions := competitions }
  if s2.monitoring then s2
  else { s2 with monitoring := true, monitorThreads := s2.monitorThreads + 1 }

/-- One output row of `calculate_final_score`: columns `teamName`,
`weighted_points` (the summed total) and `rank`. -/
structure FinalRow (α : Type) where
  teamName : String
  weighted_points : α
  rank : Nat
deriving DecidableEq

/-- Relation ordering grouped rows by descending summed points, the
`sort_values(by=weighted_points-column, ascending=False)` key order of
line 245. -/
def ptsGe {α : Type} [LinearOrderedCommRing α] (a b : String × α) : Prop := b.2 ≤ a.2

instance : DecidableRel (ptsGe (α := α)) := fun a b => inferInstanceAs (Decidable (b.2 ≤ a.2))

instance : IsTotal (String × α) ptsGe := ⟨fun a b => le_total b.2 a.2⟩

instance : IsTrans (String × α) ptsGe := ⟨fun _ _ _ h1 h2 => le_trans h2 h1⟩

/-- The loop body of `calculate_final_score` for one `(competition,
weight)` item (lines 227-235): every row of the fetched frame becomes a
`(teamName, weighted_points)` record with `weighted_points = score *
weight` (line 232).  A failed fetch yields the empty frame and hence no
records; the `competition` column added on line 234 is dropped by the
later `groupby` sum and is not modelled. -/
def competitionRows {α : Type} [LinearOrderedCommRing α] (fetch : String → List (Row α))
    (p : String × α) : List (String × α) :=
  (fetch p.1).map (fun r => (r.teamName, r.score * p.2))

/-- `all_results` accumulated over the weights dict in iteration order,
already concatenated (`pd.concat`, line 243). -/
def allResults {α : Type} [LinearOrderedCommRing α] (fetch : String → List (Row α)) :
    List (String × α) → List (String × α)
  | [] => []
  | p :: rest => competitionRows fetch p ++ allResults fetch rest

/-- `groupby(teamName-column, as_index=False)[weighted_points-column]
.sum()` (line 244): one record per distinct team name, keys in ascending
name order (the pandas `sort=True` default), each carrying the sum of that
team's weighted points. -/
def groupedResults {α : Type} [LinearOrderedCommRing α] (all : List (String × α)) :
    List (String × α) :=
  (List.insertionSort nameLe (all.map Prod.fst).dedup).map
    (fun n => (n, ((all.filter (fun p => p.1 = n)).map Prod.snd).sum))

/-- `final_results[rank-column] = final_results.index + 1` (line 246)
after `reset_index(drop=True)`: the accumulator `i` is the positional
index of the head. -/
def assignRanks {α : Type} : Nat → List (String × α) → List (FinalRow α)
  | _, [] => []
  | i, (n, s) :: rest => ⟨n, s, i + 1⟩ :: assignRanks (i + 1) rest

/-- `KaggleService.calculate_final_score` (lines 223-248).  `fetch` gives
the frame returned by `self.fetch_leaderboard_data` for each competition
during this aggregation pass. -/
def calculate_final_score {α : Type} [LinearOrderedCommRing α] [DecidableEq α]
    (fetch : String → List (Row α)) (competitions : List (String × α)) : List (FinalRow α) :=
  let all := allResults fetch competitions
  if all = [] then []
  else assignRanks 0 (List.insertionSort ptsGe (groupedResults all))

/-- `KaggleService.calculate_position_points` (lines 114-116): the float
computation `36 * math.exp(-0.2 * position)` read over the reals. -/
noncomputable def calculate_position_points (position : Nat) : ℝ :=
  36 * Real.exp (-0.2 * position)

/-- Concrete old snapshot used in evaluations: teams A and B. -/
def exOld : List (Row ℤ) := [⟨1, "A", 36⟩, ⟨2, "B", 29⟩]

/-- Concrete new snapshot: team A unchanged, team B dropped out. -/
def exNew : List (Row ℤ) := [⟨1, "A", 36⟩]

/-- Concrete cache holding the old snapshot for competition `comp`. -/
def exCache : List (String × List (Row ℤ)) := [("comp", exOld)]

/-- Environment in which the remote API returns the new snapshot. -/
def exEnvOk : FetchEnv ℤ := ⟨CsvResult.err, ApiResult.ok exNew⟩

/-- Environment in which the CSV read returns the new snapshot. -/
def exEnvCsv : FetchEnv ℤ := ⟨CsvResult.ok exNew, ApiResult.err⟩

/-- C6 fails as stated: with monitoring already running after a first
`start_monitoring`, a second call with a different weights dict is not a
no-op — line 91 unconditionally replaces `self._competitions`. -/
theorem start_monitoring_not_idempotent :
    (start_monitoring (⟨[], false, 0⟩ : MonitorState ℤ) [(("a"), 1)]).monitoring = true ∧
    start_monitoring (start_monitoring (⟨[], false, 0⟩ : MonitorState ℤ) [(("a"), 1)]) [(("b"), 1)] ≠
      start_monitoring (⟨[], false, 0⟩ : MonitorState ℤ) [(("a"), 1)] := by
  decide

/-- C6 (amended): a second `start_monitoring` call while the service is
already running launches no further monitor loop and leaves the
monitoring flag set, but it unconditionally replaces the configured
weights dict with its argument; the state is unchanged only when the same
dict is passed again. -/
theorem start_monitoring_second_call {α : Type} (s : MonitorState α)
    (c c2 : List (String × α)) :
    start_monitoring (start_monitoring s c) c2 =
      { start_monitoring s c with competitions := c2 } := by
  by_cases h : s.monitoring <;> simp [start_monitoring, h]

/-- C10: a fetch of a CSV-backed competition (lines 121-130) returns the
freshly read snapshot and touches nothing else: the cache is unchanged for
every competition, change detection never runs and no observer is
notified. -/
theorem fetch_csv_is_pure {α : Type} [LinearOrderedCommRing α] [DecidableEq α]
    (cache : List (String × List (Row α))) (observers : List Bool) (name : String)
    (env : FetchEnv α) (rows : List (Row α))
    (hname : name ∈ csv_challenges) (hcsv : env.csv = CsvResult.ok rows) :
    fetch_leaderboard_data cache observers name env = ⟨cache, none, [], rows, false⟩ := by
  simp [fetch_leaderboard_data, hname, hcsv]

/-- C10 witness at a concrete CSV-backed competition. -/
theorem fetch_csv_is_pure_witness :
    fetch_leaderboard_data exCache [] ("csv-challenge-1") exEnvCsv =
      ⟨exCache, none, [], exNew, false⟩ :=
  fetch_csv_is_pure exCache [] ("csv-challenge-1") exEnvCsv exNew (by decide) rfl

/-- C9: the positional scoring function `36 * exp(-0.2 * position)` is
strictly decreasing in the position. -/
theorem calculate_position_points_strict_anti (p1 p2 : Nat) (h : p1 < p2) :
    calculate_position_points p1 > calculate_position_points p2 := by
  unfold calculate_position_points
  have hc : (p1 : ℝ) < p2 := by exact_mod_cast h
  have h2 : (-0.2 : ℝ) * p2 < -0.2 * p1 := by nlinarith
  have h3 := Real.exp_lt_exp.mpr h2
  nlinarith [Real.exp_pos ((-0.2 : ℝ) * p2)]

/-- C9 witness: first place scores strictly more than second place. -/
theorem calculate_position_points_strict_anti_witness :
    calculate_position_points 0 > calculate_position_points 1 :=
  calculate_position_points_strict_anti 0 1 (by decide)

theorem detectAux_nil_old {α : Type} [LinearOrderedCommRing α] [DecidableEq α]
    (i : Nat) (S : List (Row α)) :
    detectAux [] i S = (S.enumFrom i).map
      (fun p => Change.new_entry p.2.teamId p.2.teamName p.1 p.2.score) := by
  induction S generalizing i with
  | nil => rfl
  | cons r rest ih =>
    simp [detectAux, detectStep, findTeam, findTeamAux, List.enumFrom, ih]

/-- C8: change detection against an empty old snapshot emits exactly one
`new_entry` per row of the new snapshot, whose `new_position` is that
row's positional index. -/
theorem detect_changes_empty_old {α : Type} [LinearOrderedCommRing α] [DecidableEq α]
    (S : List (Row α)) :
    detect_changes [] S =
      S.enum.map (fun p => Change.new_entry p.2.teamId p.2.teamName p.1 p.2.score) :=
  detectAux_nil_old 0 S

theorem lookupCache_insertCache_self {α : Type} (cache : List (String × List (Row α)))
    (n : String) (v : List (Row α)) :
    lookupCache (insertCache cache n v) n = some v := by
  induction cache with
  | nil => simp [insertCache, lookupCache]
  | cons p rest ih =>
    obtain ⟨k, w⟩ := p
    by_cases h : k = n <;> simp [insertCache, lookupCache, h, ih]

/-- C1 fails as stated: a successful fetch that returns a non-empty
snapshot does not always overwrite the cache.  Here the new snapshot
drops team B and leaves team A unchanged, so `_detect_changes` returns an
empty frame and lines 158-161 skip the cache assignment: the cache keeps
the previous two-row snapshot. -/
theorem fetch_cache_not_overwritten :
    (fetch_leaderboard_data exCache [] ("comp") exEnvOk).ret = exNew ∧
    exNew ≠ [] ∧
    lookupCache (fetch_leaderboard_data exCache [] ("comp") exEnvOk).cache ("comp") ≠
      some exNew := by
  decide

/-- C1 (amended): after a successful API-backed fetch of `df`, the cached
snapshot equals `df` when the competition was uncached (first
observation) or when change detection reports at least one change;
when a previous snapshot exists and detection reports no change, the
cache keeps the previous snapshot (which can differ from `df` when teams
dropped out). -/
theorem fetch_cache_after_api_fetch {α : Type} [LinearOrderedCommRing α] [DecidableEq α]
    (cache : List (String × List (Row α))) (observers : List Bool) (name : String)
    (env : FetchEnv α) (df : List (Row α))
    (hname : name ∉ csv_challenges) (hapi : env.api = ApiResult.ok df) :
    lookupCache (fetch_leaderboard_data cache observers name env).cache name =
      (match lookupCache cache name with
       | some old_df => if detect_changes old_df df = [] then some old_df else some df
       | none => some df) := by
  simp only [fetch_leaderboard_data, if_neg hname, hapi]
  cases hl : lookupCache cache name with
  | none => simp [lookupCache_insertCache_self]
  | some old_df =>
    by_cases hch : detect_changes old_df df = [] <;>
      simp [hch, hl, lookupCache_insertCache_self]

/-- C1 amended-claim witness: at the concrete dropped-team snapshots the
cache afterwards still holds the old snapshot. -/
theorem fetch_cache_after_api_fetch_witness :
    lookupCache (fetch_leaderboard_data exCache [] ("comp") exEnvOk).cache ("comp") =
      some exOld :=
  (fetch_cache_after_api_fetch exCache [] ("comp") exEnvOk exNew (by decide) rfl).trans
    (by decide)

theorem notifyAux_first_raise (observers : List Bool) (i k : Nat)
    (hk : k < observers.length)
    (hfirst : ∀ m (hm : m < k), observers.get ⟨m, lt_trans hm hk⟩ = false)
    (hraise : observers.get ⟨k, hk⟩ = true) :
    notifyAux i observers = ((List.range (k + 1)).map (i + ·), true) := by
  induction observers generalizing i k with
  | nil => simp at hk
  | cons b rest ih =>
    cases k with
    | zero =>
      have hb : b = true := hraise
      simp [notifyAux, hb, List.range_succ]
    | succ k2 =>
      have hb : b = false := hfirst 0 (Nat.succ_pos k2)
      have hk2 : k2 < rest.length := Nat.lt_of_succ_lt_succ hk
      have hfirst2 : ∀ m (hm : m < k2), rest.get ⟨m, lt_trans hm hk2⟩ = false := fun m hm =>
        hfirst (m + 1) (Nat.succ_lt_succ hm)
      have hraise2 : rest.get ⟨k2, hk2⟩ = true := hraise
      simp only [notifyAux, hb, Bool.false_eq_true, if_false]
      rw [ih (i + 1) k2 hk2 hfirst2 hraise2]
      have hmap : List.map (fun x => (i + 1) + x) (List.range (k2 + 1)) =
          List.map (i + ·) (List.map Nat.succ (List.range (k2 + 1))) := by
        rw [List.map_map]
        apply List.map_congr_left
        intro m _
        simp only [Function.comp_apply, Nat.succ_eq_add_one]
        omega
      conv_rhs => rw [List.range_succ_eq_map]
      simp only [List.map_cons, Nat.add_zero]
      rw [← hmap]

/-- C2 fails as stated: `notify_observers` (lines 218-221) has no handler
around `observer.update`, so when the first listener raises, the second
listener is never invoked and the exception escapes the notification
loop (it is only caught further out, by the `except` of line 168). -/
theorem notify_exception_stops_loop :
    (fetch_leaderboard_data ([] : List (String × List (Row ℤ))) [true, false] ("comp")
        exEnvOk).invoked = [0] ∧
    (notify_observers [true, false]).2 = true := by
  decide

/-- C2 (amended): when the listener at index `k` is the first to raise
during a notification — whether triggered by a first observation
(lines 163-164) or by a cached snapshot with non-empty detected changes
(lines 159-160) — the listeners after `k` are not invoked; the exception
escapes `notify_observers` and is caught by the `except` handler of the
fetch (line 168), which logs it and makes the fetch return an empty
frame; the cache assignment, made before notification, is left in place,
so the cached snapshot still equals the fetched one. -/
theorem fetch_listener_exception {α : Type} [LinearOrderedCommRing α] [DecidableEq α]
    (cache : List (String × List (Row α))) (observers : List Bool) (name : String)
    (env : FetchEnv α) (df : List (Row α)) (k : Nat)
    (hname : name ∉ csv_challenges) (hapi : env.api = ApiResult.ok df)
    (hnotify : lookupCache cache name = none ∨
      ∃ old_df, lookupCache cache name = some old_df ∧ detect_changes old_df df ≠ [])
    (hk : k < observers.length)
    (hfirst : ∀ m (hm : m < k), observers.get ⟨m, lt_trans hm hk⟩ = false)
    (hraise : observers.get ⟨k, hk⟩ = true) :
    (fetch_leaderboard_data cache observers name env).invoked = List.range (k + 1) ∧
    (fetch_leaderboard_data cache observers name env).errorLogged = true ∧
    (fetch_leaderboard_data cache observers name env).ret = [] ∧
    lookupCache (fetch_leaderboard_data cache observers name env).cache name = some df := by
  have hnote : notify_observers observers = (List.range (k + 1), true) := by
    rw [notify_observers, notifyAux_first_raise observers 0 k hk hfirst hraise]
    simp
  rcases hnotify with hcache | ⟨old_df, hcache, hch⟩
  · simp [fetch_leaderboard_data, hname, hapi, hcache, hnote, lookupCache_insertCache_self]
  · simp [fetch_leaderboard_data, hname, hapi, hcache, hch, hnote, lookupCache_insertCache_self]

/-- New snapshot whose score for team A changed against `exOld`, so
change detection reports a non-empty change frame. -/
def exNewScored : List (Row ℤ) := [⟨1, "A", 40⟩, ⟨2, "B", 29⟩]

/-- Environment in which the remote API returns `exNewScored`. -/
def exEnvScored : FetchEnv ℤ := ⟨CsvResult.err, ApiResult.ok exNewScored⟩

/-- C2 amended-claim witness, at the change-detection notification site:
the competition is already cached, detection reports a change, the
non-raising first listener and the raising second listener are both
invoked, the fetch logs and returns an empty frame, and the cache holds
the newly fetched snapshot. -/
theorem fetch_listener_exception_witness :
    (fetch_leaderboard_data exCache [false, true] ("comp") exEnvScored).invoked =
      List.range 2 ∧
    (fetch_leaderboard_data exCache [false, true] ("comp") exEnvScored).errorLogged = true ∧
    (fetch_leaderboard_data exCache [false, true] ("comp") exEnvScored).ret = [] ∧
    lookupCache (fetch_leaderboard_data exCache [false, true] ("comp")
        exEnvScored).cache ("comp") = some exNewScored :=
  fetch_listener_exception exCache [false, true] ("comp") exEnvScored exNewScored 1
    (by decide) rfl
    (Or.inr ⟨exOld, by decide, by decide⟩)
    (by decide)
    (fun m hm => by
      have hm0 : m = 0 := by omega
      subst hm0
      rfl)
    rfl

theorem allResults_append {α : Type} [LinearOrderedCommRing α]
    (fetch : String → List (Row α)) (l1 l2 : List (String × α)) :
    allResults fetch (l1 ++ l2) = allResults fetch l1 ++ allResults fetch l2 := by
  induction l1 with
  | nil => rfl
  | cons p rest ih => simp [allResults, ih]

theorem allResults_all_empty {α : Type} [LinearOrderedCommRing α]
    (fetch : String → List (Row α)) (comps : List (String × α))
    (h : ∀ p ∈ comps, fetch p.1 = []) : allResults fetch comps = [] := by
  induction comps with
  | nil => rfl
  | cons p rest ih =>
    have hp : fetch p.1 = [] := h p (List.mem_cons_self p rest)
    have hrest : ∀ q ∈ rest, fetch q.1 = [] := fun q hq => h q (List.mem_cons_of_mem p hq)
    simp [allResults, competitionRows, hp, ih hrest]

/-- C5: the fail-soft policy.  A failed API or CSV read makes the fetch
return an empty frame with no state change and no exception (first two
conjuncts); a competition whose fetch produced the empty frame
contributes nothing to `calculate_final_score` (third conjunct); and when
every competition's fetch produced the empty frame, or the weights dict
is empty, `calculate_final_score` returns the empty final ranking (last
two conjuncts). -/
theorem fetch_failure_fail_soft {α : Type} [LinearOrderedCommRing α] [DecidableEq α] :
    (∀ (cache : List (String × List (Row α))) (observers : List Bool) (name : String)
        (env : FetchEnv α), name ∉ csv_challenges → env.api = ApiResult.err →
        fetch_leaderboard_data cache observers name env = ⟨cache, none, [], [], true⟩) ∧
    (∀ (cache : List (String × List (Row α))) (observers : List Bool) (name : String)
        (env : FetchEnv α), name ∈ csv_challenges → env.csv = CsvResult.err →
        fetch_leaderboard_data cache observers name env = ⟨cache, none, [], [], true⟩) ∧
    (∀ (fetch : String → List (Row α)) (pre post : List (String × α)) (c : String) (w : α),
        fetch c = [] →
        calculate_final_score fetch (pre ++ (c, w) :: post) =
          calculate_final_score fetch (pre ++ post)) ∧
    (∀ (fetch : String → List (Row α)) (comps : List (String × α)),
        (∀ p ∈ comps, fetch p.1 = []) → calculate_final_score fetch comps = []) ∧
    (∀ fetch : String → List (Row α), calculate_final_score fetch [] = []) := by
  refine ⟨?_, ?_, ?_, ?_, ?_⟩
  · intro cache observers name env hname hapi
    simp [fetch_leaderboard_data, hname, hapi]
  · intro cache observers name env hname hcsv
    simp [fetch_leaderboard_data, hname, hcsv]
  · intro fetch pre post c w hc
    have : allResults fetch (pre ++ (c, w) :: post) = allResults fetch (pre ++ post) := by
      rw [allResults_append, allResults_append]
      simp [allResults, competitionRows, hc]
    simp only [calculate_final_score, this]
  · intro fetch comps h
    simp [calculate_final_score, allResults_all_empty fetch comps h]
  · intro fetch
    rfl

/-- C5 witness: with every fetch failing (modelled as returning the empty
frame), aggregation over one competition yields the empty ranking. -/
theorem fetch_failure_fail_soft_witness :
    calculate_final_score (fun _ => ([] : List (Row ℤ))) [(("a"), 2)] = [] :=
  (fetch_failure_fail_soft (α := ℤ)).2.2.2.1 (fun _ => []) [(("a"), 2)]
    (fun _ _ => rfl)

theorem allResults_eq_flatMap {α : Type} [LinearOrderedCommRing α]
    (fetch : String → List (Row α)) (comps : List (String × α)) :
    allResults fetch comps = comps.flatMap (competitionRows fetch) := by
  induction comps with
  | nil => rfl
  | cons p rest ih => simp [allResults, ih]

theorem groupedResults_perm_invariant {α : Type} [LinearOrderedCommRing α]
    {all1 all2 : List (String × α)} (h : all1.Perm all2) :
    groupedResults all1 = groupedResults all2 := by
  have hnames : ((all1.map Prod.fst).dedup).Perm ((all2.map Prod.fst).dedup) :=
    (h.map Prod.fst).dedup
  have heq : List.insertionSort nameLe (all1.map Prod.fst).dedup =
      List.insertionSort nameLe (all2.map Prod.fst).dedup :=
    List.eq_of_perm_of_sorted
      ((List.perm_insertionSort nameLe _).trans
        (hnames.trans (List.perm_insertionSort nameLe _).symm))
      (List.sorted_insertionSort nameLe _) (List.sorted_insertionSort nameLe _)
  unfold groupedResults
  rw [heq]
  apply List.map_congr_left
  intro n _
  have hf : (all1.filter (fun p => p.1 = n)).Perm (all2.filter (fun p => p.1 = n)) :=
    h.filter _
  exact congrArg (Prod.mk n) (hf.map Prod.snd).sum_eq

/-- C7: `calculate_final_score` is invariant under the order in which the
weights dict supplies its competitions — the grouped sums do not depend
on the concatenation order of the per-competition rows, and the group
keys are emitted in sorted order. -/
theorem calculate_final_score_perm_invariant {α : Type} [LinearOrderedCommRing α]
    [DecidableEq α] (fetch : String → List (Row α)) (comps1 comps2 : List (String × α))
    (h : comps1.Perm comps2) :
    calculate_final_score fetch comps1 = calculate_final_score fetch comps2 := by
  have hall : (allResults fetch comps1).Perm (allResults fetch comps2) := by
    rw [allResults_eq_flatMap, allResults_eq_flatMap]
    exact h.flatMap_right _
  by_cases h1 : allResults fetch comps1 = []
  · have h2 : allResults fetch comps2 = [] := by
      rw [h1] at hall
      exact hall.symm.eq_nil
    simp [calculate_final_score, h1, h2]
  · have h2 : allResults fetch comps2 ≠ [] := by
      intro he
      rw [he] at hall
      exact h1 hall.eq_nil
    simp only [calculate_final_score, if_neg h1, if_neg h2]
    rw [groupedResults_perm_invariant hall]

/-- Concrete fetch results for two competitions with two teams each. -/
def exFetch : String → List (Row ℤ) := fun c =>
  if c = "a" then [⟨1, "X", 30⟩, ⟨2, "Y", 29⟩]
  else if c = "b" then [⟨2, "Y", 30⟩, ⟨1, "X", 29⟩]
  else []

/-- C7 witness: swapping the two competitions in the weights dict leaves
the final ranking unchanged. -/
theorem calculate_final_score_perm_invariant_witness :
    calculate_final_score exFetch [(("a"), 2), (("b"), 1)] =
      calculate_final_score exFetch [(("b"), 1), (("a"), 2)] :=
  calculate_final_score_perm_invariant exFetch [(("a"), 2), (("b"), 1)]
    [(("b"), 1), (("a"), 2)] (List.Perm.swap (("b"), 1) (("a"), 2) [])

theorem assignRanks_map_teamName {α : Type} (i : Nat) (l : List (String × α)) :
    (assignRanks i l).map FinalRow.teamName = l.map Prod.fst := by
  induction l generalizing i with
  | nil => rfl
  | cons p rest ih =>
    obtain ⟨n, s⟩ := p
    simp [assignRanks, ih]

theorem assignRanks_map_points {α : Type} (i : Nat) (l : List (String × α)) :
    (assignRanks i l).map FinalRow.weighted_points = l.map Prod.snd := by
  induction l generalizing i with
  | nil => rfl
  | cons p rest ih =>
    obtain ⟨n, s⟩ := p
    simp [assignRanks, ih]

theorem assignRanks_mem {α : Type} {i : Nat} {l : List (String × α)} {r : FinalRow α}
    (h : r ∈ assignRanks i l) : (r.teamName, r.weighted_points) ∈ l := by
  induction l generalizing i with
  | nil => simp [assignRanks] at h
  | cons p rest ih =>
    obtain ⟨n, s⟩ := p
    rcases (List.mem_cons).mp h with he | hm
    · subst he
      exact List.mem_cons_self _ _
    · exact List.mem_cons_of_mem _ (ih hm)

theorem assignRanks_length {α : Type} (i : Nat) (l : List (String × α)) :
    (assignRanks i l).length = l.length := by
  induction l generalizing i with
  | nil => rfl
  | cons p rest ih =>
    obtain ⟨n, s⟩ := p
    simp [assignRanks, ih]

theorem assignRanks_get_rank {α : Type} (l : List (String × α)) (k i : Nat)
    (hi : i < (assignRanks k l).length) :
    ((assignRanks k l).get ⟨i, hi⟩).rank = k + i + 1 := by
  induction l generalizing k i with
  | nil => simp [assignRanks] at hi
  | cons p rest ih =>
    obtain ⟨n, s⟩ := p
    cases i with
    | zero => rfl
    | succ i2 =>
      have hi2 : i2 < (assignRanks (k + 1) rest).length := by
        simpa [assignRanks] using Nat.lt_of_succ_lt_succ hi
      have := ih (k + 1) i2 hi2
      simpa [assignRanks, Nat.add_assoc, Nat.add_comm, Nat.add_left_comm] using this

theorem mem_groupedResults {α : Type} [LinearOrderedCommRing α] {all : List (String × α)}
    {n : String} {s : α} (h : (n, s) ∈ groupedResults all) :
    s = ((all.filter (fun p => p.1 = n)).map Prod.snd).sum := by
  unfold groupedResults at h
  rcases List.mem_map.mp h with ⟨n0, _, heq⟩
  rcases Prod.mk.injEq .. ▸ heq with ⟨h1, h2⟩
  exact h1 ▸ h2.symm

/-- C4: `calculate_final_score` groups all weighted rows by team name
(one output row per distinct team name among the contributed rows), gives
each team the sum of its weighted points (`score * weight` per row,
line 232), orders the output by descending summed weighted points, and
assigns `rank = index + 1` in that order. -/
theorem calculate_final_score_spec {α : Type} [LinearOrderedCommRing α] [DecidableEq α]
    (fetch : String → List (Row α)) (comps : List (String × α)) :
    ((calculate_final_score fetch comps).map FinalRow.teamName).Perm
        ((allResults fetch comps).map Prod.fst).dedup ∧
    (∀ r ∈ calculate_final_score fetch comps,
        r.weighted_points =
          (((allResults fetch comps).filter (fun p => p.1 = r.teamName)).map Prod.snd).sum) ∧
    ((calculate_final_score fetch comps).map FinalRow.weighted_points).Pairwise (· ≥ ·) ∧
    (∀ i (hi : i < (calculate_final_score fetch comps).length),
        ((calculate_final_score fetch comps).get ⟨i, hi⟩).rank = i + 1) := by
  by_cases hall : allResults fetch comps = []
  · refine ⟨?_, ?_, ?_, ?_⟩ <;> simp [calculate_final_score, hall]
  · have hout : calculate_final_score fetch comps =
        assignRanks 0 (List.insertionSort ptsGe (groupedResults (allResults fetch comps))) := by
      simp [calculate_final_score, hall]
    refine ⟨?_, ?_, ?_, ?_⟩
    · rw [hout, assignRanks_map_teamName]
      have h1 : (List.insertionSort ptsGe (groupedResults (allResults fetch comps))).Perm
          (groupedResults (allResults fetch comps)) := List.perm_insertionSort _ _
      have h2 : (groupedResults (allResults fetch comps)).map Prod.fst =
          List.insertionSort nameLe ((allResults fetch comps).map Prod.fst).dedup := by
        unfold groupedResults
        rw [List.map_map]
        exact List.map_id _
      refine (h1.map Prod.fst).trans ?_
      rw [h2]
      exact List.perm_insertionSort _ _
    · intro r hr
      rw [hout] at hr
      have hmem : (r.teamName, r.weighted_points) ∈
          List.insertionSort ptsGe (groupedResults (allResults fetch comps)) :=
        assignRanks_mem hr
      have hmem2 : (r.teamName, r.weighted_points) ∈ groupedResults (allResults fetch comps) :=
        (List.mem_insertionSort ptsGe).mp hmem
      exact mem_groupedResults hmem2
    · rw [hout, assignRanks_map_points]
      have hs : (List.insertionSort ptsGe (groupedResults (allResults fetch comps))).Sorted
          ptsGe := List.sorted_insertionSort ptsGe _
      exact (List.pairwise_map).mpr (hs.imp (fun hab => hab))
    · intro i hi
      have hi2 : i < (assignRanks 0 (List.insertionSort ptsGe
          (groupedResults (allResults fetch comps)))).length := by
        rw [← hout]
        exact hi
      have hget : (calculate_final_score fetch comps).get ⟨i, hi⟩ =
          (assignRanks 0 (List.insertionSort ptsGe
            (groupedResults (allResults fetch comps)))).get ⟨i, hi2⟩ := by
        congr 1
        exact (Fin.heq_ext_iff (by rw [hout])).mpr rfl
      rw [hget]
      simpa using assignRanks_get_rank _ 0 i hi2

/-- C4 witness: at the concrete two-competition example the top-ranked
output row has rank 1. -/
theorem calculate_final_score_spec_witness :
    ((calculate_final_score exFetch [(("a"), 2), (("b"), 1)]).get ⟨0, by decide⟩).rank = 1 :=
  (calculate_final_score_spec exFetch [(("a"), 2), (("b"), 1)]).2.2.2 0 (by decide)

theorem detectStep_teamId {α : Type} [LinearOrderedCommRing α] [DecidableEq α]
    {old : List (Row α)} {i : Nat} {row : Row α} {c : Change α}
    (h : detectStep old i row = some c) : changeTeamId c = row.teamId := by
  unfold detectStep at h
  cases hf : findTeam old row.teamId with
  | none =>
    rw [hf] at h
    cases h
    rfl
  | some pr =>
    obtain ⟨p, rowp⟩ := pr
    rw [hf] at h
    dsimp only at h
    by_cases hg : p ≠ i ∨ rowp.score ≠ row.score
    · rw [if_pos hg] at h
      cases h
      rfl
    · rw [if_neg hg] at h
      cases h

theorem detectStep_newPos {α : Type} [LinearOrderedCommRing α] [DecidableEq α]
    {old : List (Row α)} {i : Nat} {row : Row α} {c : Change α}
    (h : detectStep old i row = some c) : changeNewPos c = i := by
  unfold detectStep at h
  cases hf : findTeam old row.teamId with
  | none =>
    rw [hf] at h
    cases h
    rfl
  | some pr =>
    obtain ⟨p, rowp⟩ := pr
    rw [hf] at h
    dsimp only at h
    by_cases hg : p ≠ i ∨ rowp.score ≠ row.score
    · rw [if_pos hg] at h
      cases h
      rfl
    · rw [if_neg hg] at h
      cases h

theorem mem_detectAux {α : Type} [LinearOrderedCommRing α] [DecidableEq α]
    {old new : List (Row α)} {i : Nat} {c : Change α} :
    c ∈ detectAux old i new ↔
      ∃ k, ∃ hk : k < new.length, detectStep old (i + k) (new.get ⟨k, hk⟩) = some c := by
  induction new generalizing i with
  | nil => simp [detectAux]
  | cons r rest ih =>
    cases hs : detectStep old i r with
    | some c2 =>
      simp only [detectAux, hs]
      rw [List.mem_cons, ih]
      constructor
      · rintro (rfl | ⟨k, hk, hstep⟩)
        · exact ⟨0, Nat.succ_pos _, by simpa using hs⟩
        · refine ⟨k + 1, Nat.succ_lt_succ hk, ?_⟩
          have harith : i + (k + 1) = (i + 1) + k := by omega
          rw [harith]
          exact hstep
      · rintro ⟨k, hk, hstep⟩
        cases k with
        | zero =>
          left
          have hc : detectStep old i r = some c := by simpa using hstep
          rw [hs] at hc
          exact (Option.some_inj.mp hc).symm
        | succ k2 =>
          right
          refine ⟨k2, Nat.lt_of_succ_lt_succ hk, ?_⟩
          have harith : (i + 1) + k2 = i + (k2 + 1) := by omega
          rw [harith]
          exact hstep
    | none =>
      simp only [detectAux, hs]
      rw [ih]
      constructor
      · rintro ⟨k, hk, hstep⟩
        refine ⟨k + 1, Nat.succ_lt_succ hk, ?_⟩
        have harith : i + (k + 1) = (i + 1) + k := by omega
        rw [harith]
        exact hstep
      · rintro ⟨k, hk, hstep⟩
        cases k with
        | zero =>
          exfalso
          have hc : detectStep old i r = some c := by simpa using hstep
          rw [hs] at hc
          cases hc
        | succ k2 =>
          refine ⟨k2, Nat.lt_of_succ_lt_succ hk, ?_⟩
          have harith : (i + 1) + k2 = i + (k2 + 1) := by omega
          rw [harith]
          exact hstep

theorem mem_detect_changes {α : Type} [LinearOrderedCommRing α] [DecidableEq α]
    {old new : List (Row α)} {c : Change α} :
    c ∈ detect_changes old new ↔
      ∃ k, ∃ hk : k < new.length, detectStep old k (new.get ⟨k, hk⟩) = some c := by
  rw [detect_changes, mem_detectAux]
  constructor <;> rintro ⟨k, hk, h⟩ <;> exact ⟨k, hk, by simpa using h⟩

theorem findTeamAux_of_nodup {α : Type} [LinearOrderedCommRing α] [DecidableEq α]
    (old : List (Row α)) (tid : Int) (i j : Nat) (hj : j < old.length)
    (hu : (old.map Row.teamId).Nodup) (htid : (old.get ⟨j, hj⟩).teamId = tid) :
    findTeamAux i old tid = some (i + j, old.get ⟨j, hj⟩) := by
  induction old generalizing i j with
  | nil => simp at hj
  | cons r rest ih =>
    rw [List.map_cons, List.nodup_cons] at hu
    cases j with
    | zero =>
      have hr : r.teamId = tid := htid
      simp [findTeamAux, hr]
    | succ j2 =>
      have hj2 : j2 < rest.length := Nat.lt_of_succ_lt_succ hj
      have htid2 : (rest.get ⟨j2, hj2⟩).teamId = tid := htid
      have hne : ¬ r.teamId = tid := by
        intro he
        apply hu.1
        rw [he, ← htid2]
        exact List.mem_map_of_mem Row.teamId (rest.get_mem j2 hj2)
      simp only [findTeamAux, if_neg hne]
      rw [ih (i + 1) j2 hj2 hu.2 htid2]
      have harith : (i + 1) + j2 = i + (j2 + 1) := by omega
      rw [harith]
      rfl

theorem findTeam_of_nodup {α : Type} [LinearOrderedCommRing α] [DecidableEq α]
    (old : List (Row α)) (tid : Int) (j : Nat) (hj : j < old.length)
    (hu : (old.map Row.teamId).Nodup) (htid : (old.get ⟨j, hj⟩).teamId = tid) :
    findTeam old tid = some (j, old.get ⟨j, hj⟩) := by
  rw [findTeam, findTeamAux_of_nodup old tid 0 j hj hu htid, Nat.zero_add]

/-- C3: with unique team ids in the old snapshot, change detection emits
for a row of the new snapshot whose team occurs in the old snapshot a
`position_change` carrying the old and new position and score exactly
when that row's positional index or score differs from the old ones; it
emits nothing for a row with unchanged index and score; and a team of the
old snapshot that is absent from the new snapshot generates no change
record at all. -/
theorem detect_changes_characterization {α : Type} [LinearOrderedCommRing α] [DecidableEq α]
    (old new : List (Row α)) (hu : (old.map Row.teamId).Nodup) :
    (∀ j (hj : j < old.length), (old.get ⟨j, hj⟩).teamId ∉ new.map Row.teamId →
        ∀ c ∈ detect_changes old new, changeTeamId c ≠ (old.get ⟨j, hj⟩).teamId) ∧
    (∀ i (hi : i < new.length), ∀ j (hj : j < old.length),
        (new.get ⟨i, hi⟩).teamId = (old.get ⟨j, hj⟩).teamId →
        (Change.position_change (new.get ⟨i, hi⟩).teamId (new.get ⟨i, hi⟩).teamName j i
            (old.get ⟨j, hj⟩).score (new.get ⟨i, hi⟩).score ∈ detect_changes old new ↔
          (j ≠ i ∨ (old.get ⟨j, hj⟩).score ≠ (new.get ⟨i, hi⟩).score))) ∧
    (∀ i (hi : i < new.length), ∀ j (hj : j < old.length),
        (new.get ⟨i, hi⟩).teamId = (old.get ⟨j, hj⟩).teamId →
        j = i → (old.get ⟨j, hj⟩).score = (new.get ⟨i, hi⟩).score →
        ∀ c ∈ detect_changes old new, changeNewPos c ≠ i) := by
  refine ⟨?_, ?_, ?_⟩
  · intro j hj habs c hc heq
    rcases mem_detect_changes.mp hc with ⟨k, hk, hstep⟩
    have hid : changeTeamId c = (new.get ⟨k, hk⟩).teamId := detectStep_teamId hstep
    apply habs
    rw [← heq, hid]
    exact List.mem_map_of_mem Row.teamId (new.get_mem k hk)
  · intro i hi j hj htid
    have hfind : findTeam old (new.get ⟨i, hi⟩).teamId = some (j, old.get ⟨j, hj⟩) :=
      findTeam_of_nodup old _ j hj hu htid.symm
    constructor
    · intro hmem
      rcases mem_detect_changes.mp hmem with ⟨k, hk, hstep⟩
      have hpos := detectStep_newPos hstep
      have hki : k = i := by simpa [changeNewPos] using hpos.symm
      subst hki
      have hstep2 : detectStep old k (new.get ⟨k, hi⟩) =
          some (Change.position_change (new.get ⟨k, hi⟩).teamId (new.get ⟨k, hi⟩).teamName j k
            (old.get ⟨j, hj⟩).score (new.get ⟨k, hi⟩).score) := hstep
      unfold detectStep at hstep2
      rw [hfind] at hstep2
      dsimp only at hstep2
      by_cases hg : j ≠ k ∨ (old.get ⟨j, hj⟩).score ≠ (new.get ⟨k, hi⟩).score
      · exact hg
      · rw [if_neg hg] at hstep2
        cases hstep2
    · intro hcond
      apply mem_detect_changes.mpr
      refine ⟨i, hi, ?_⟩
      unfold detectStep
      rw [hfind]
      dsimp only
      rw [if_pos hcond]
  · intro i hi j hj htid hji hsc c hc
    intro hne
    rcases mem_detect_changes.mp hc with ⟨k, hk, hstep⟩
    have hpos : changeNewPos c = k := detectStep_newPos hstep
    have hki : k = i := by rw [← hpos, hne]
    subst hki
    have hfind : findTeam old (new.get ⟨k, hi⟩).teamId = some (j, old.get ⟨j, hj⟩) :=
      findTeam_of_nodup old _ j hj hu htid.symm
    have hstep2 : detectStep old k (new.get ⟨k, hi⟩) = some c := hstep
    unfold detectStep at hstep2
    rw [hfind] at hstep2
    dsimp only at hstep2
    rw [if_neg (by
      subst hji
      exact fun hor => hor.elim (fun hne2 => hne2 rfl) (fun hne2 => hne2 hsc))] at hstep2
    cases hstep2

/-- Old snapshot for the change-detection witness: A first, B second. -/
def exOld2 : List (Row ℤ) := [⟨1, "A", 10⟩, ⟨2, "B", 9⟩]

/-- New snapshot for the change-detection witness: B overtakes A. -/
def exNew2 : List (Row ℤ) := [⟨2, "B", 10⟩, ⟨1, "A", 9⟩]

/-- C3 witness: team B moved from old position 1 (score 9) to new
position 0 (score 10), so a `position_change` with exactly those fields
is emitted. -/
theorem detect_changes_characterization_witness :
    Change.position_change 2 ("B") 1 0 (9 : ℤ) 10 ∈ detect_changes exOld2 exNew2 :=
  ((detect_changes_characterization exOld2 exNew2 (by decide)).2.1 0 (by decide) 1
    (by decide) rfl).mpr (by decide)
